import Mathlib

/-!
Shallow embedding of the document/version/permission storage core of
`app/models/document_manager.py` (class `DocumentManagementSystem`).

Modelling conventions:
* The SQLite database is a record of lists of rows, one list per table, kept
  in insertion (rowid) order.  `SELECT ... WHERE id = ?` followed by
  `fetchone()` is `List.find?`; an `UPDATE ... WHERE p` is a `List.map` that
  rewrites exactly the rows satisfying `p`; `INSERT OR REPLACE` first drops
  the rows that would collide on a UNIQUE constraint and then appends.
* The filesystem is a list of `(path, content)` pairs; `shutil.copy2` is an
  overwriting insert, `shutil.move` a rename, `os.remove` a filter.
* JSON metadata is kept structured (`Meta`) in document rows; the database
  stores `json.dumps` of it, and `dumps` below reproduces the `json.dumps`
  layout (`"k": "v"` with `", "` separators) so that SQL `LIKE` matching over
  the serialized column is faithful.  Values never need JSON escaping in any
  statement below.
* `uuid.uuid4()` and `datetime.now().isoformat()` are nondeterministic inputs
  of the Python code; they are passed as explicit arguments.
* SHA-256 is abstracted by an injective stand-in (`hashString`); no claim
  inspects hash values.
* SQLite TEXT comparison (memcmp on UTF-8 bytes) is modelled by lexicographic
  comparison of code points (`lexLt`), which agrees on the ASCII strings used
  throughout; `LIKE '%t%'` with a wildcard-free `t` is case-insensitive
  substring containment, as in SQLite's default ASCII-only `LIKE`.
-/

namespace DocSys

/-! ### String utilities -/

/-- Does `needle` occur as a prefix of `hay`? -/
def startsWith : List Char → List Char → Bool
  | _, [] => true
  | [], _ :: _ => false
  | a :: as, b :: bs => a == b && startsWith as bs

/-- Does `needle` occur as a contiguous substring of `hay`? -/
def containsSub (hay needle : List Char) : Bool :=
  match hay with
  | [] => startsWith [] needle
  | _ :: t => startsWith hay needle || containsSub t needle

/-- Lower-case the characters of a string (Python `str.lower` / SQLite
ASCII-insensitive `LIKE`). -/
def lowerChars (s : String) : List Char :=
  s.data.map Char.toLower

def lowerStr (s : String) : String :=
  String.mk (lowerChars s)

/-- SQL `col LIKE '%pat%'` for a wildcard-free `pat` (case-insensitive). -/
def likeCI (hay pat : String) : Bool :=
  containsSub (lowerChars hay) (lowerChars pat)

/-- SQL `col LIKE '%pat'` for a wildcard-free `pat` (case-insensitive suffix
match). -/
def endsWithCI (hay pat : String) : Bool :=
  startsWith (lowerChars hay).reverse (lowerChars pat).reverse

/-- Strict lexicographic order on code points: SQLite TEXT `<`. -/
def lexLt : List Char → List Char → Bool
  | [], [] => false
  | [], _ :: _ => true
  | _ :: _, [] => false
  | a :: as, b :: bs =>
    if a.val < b.val then true
    else if b.val < a.val then false
    else lexLt as bs

/-- Lexicographic `≤` on code points: SQLite TEXT `<=`. -/
def lexLe (a b : List Char) : Bool :=
  !(lexLt b a)

/-- Python `str.split()` (no argument): split on runs of whitespace, dropping
empty tokens. -/
def splitWsChars : List Char → List (List Char)
  | [] => []
  | c :: cs =>
    let rest := splitWsChars cs
    if c.isWhitespace then rest
    else
      match cs with
      | [] => [[c]]
      | c2 :: _ =>
        if c2.isWhitespace then [c] :: rest
        else
          match rest with
          | [] => [[c]]
          | w :: ws => (c :: w) :: ws

def splitWs (s : String) : List String :=
  (splitWsChars s.data).map String.mk

/-- Split on a single separator character, keeping empty pieces
(`str.split(sep)`). -/
def splitOnChar (sep : Char) : List Char → List (List Char)
  | [] => [[]]
  | c :: cs =>
    let rest := splitOnChar sep cs
    if c == sep then [] :: rest
    else
      match rest with
      | [] => [[c]]
      | w :: ws => (c :: w) :: ws

/-- Join strings with a separator (`sep.join(parts)`). -/
def joinSep (sep : String) : List String → String
  | [] => ""
  | [x] => x
  | x :: y :: t => x ++ sep ++ joinSep sep (y :: t)

/-- `os.path.basename` for the slash-separated paths used by the manager. -/
def basename (p : String) : String :=
  String.mk ((splitOnChar '/' p.data).getLastD [])

/-! ### Metadata (free-form JSON maps) -/

/-- A JSON value stored in a metadata map: the manager only ever stores
strings and lists of strings (tags, recipients). -/
inductive MVal where
  | str (v : String)
  | arr (a : List String)
deriving DecidableEq

/-- A metadata map, in insertion order (Python dicts preserve it). -/
abbrev Meta := List (String × MVal)

def dumpsVal : MVal → String
  | .str v => "\"" ++ v ++ "\""
  | .arr a => "[" ++ joinSep ", " (a.map (fun x => "\"" ++ x ++ "\"")) ++ "]"

/-- `json.dumps` of a metadata map, reproducing the default separators
(`", "` and `": "`). -/
def dumps (m : Meta) : String :=
  "\x7b" ++ joinSep ", " (m.map (fun kv => "\"" ++ kv.1 ++ "\": " ++ dumpsVal kv.2)) ++ "\x7d"

/-- `meta.get(k, dflt)` for a string-valued key.  A `None` metadata column
never reaches this in the statements below. -/
def metaGetStrD (m : Option Meta) (k dflt : String) : String :=
  match m with
  | none => dflt
  | some l =>
    match l.find? (fun kv => kv.1 == k) with
    | some (_, .str v) => v
    | _ => dflt

/-- `meta.get(k, [])` for a list-valued key. -/
def metaGetArr (m : Option Meta) (k : String) : List String :=
  match m with
  | none => []
  | some l =>
    match l.find? (fun kv => kv.1 == k) with
    | some (_, .arr a) => a
    | _ => []

/-! ### Data model: table rows and system state -/

/-- A row of the `documents` table (with `file_size`, `file_hash`,
`content_index` from the migration). -/
structure DocRow where
  id : String
  original_name : String
  stored_path : String
  created_at : String
  version : Nat
  metadata : Option Meta
  deleted : Bool
  file_size : Option Nat
  file_hash : Option String
  content_index : Option String
deriving DecidableEq

/-- A row of the `document_versions` table. -/
structure VersionRow where
  id : String
  document_id : String
  version_number : Nat
  original_name : String
  stored_path : String
  created_at : String
  created_by : String
  change_description : Option String
  file_size : Option Nat
  file_hash : Option String
deriving DecidableEq

/-- A row of the `archived_documents` table. -/
structure ArchivedDocRow where
  id : String
  original_name : String
  stored_path : String
  created_at : String
  version : Nat
  metadata : Option Meta
  deleted_at : String
  deleted_by : Option String
deriving DecidableEq

/-- A row of the `user_permissions` table. -/
structure PermRow where
  id : String
  user_id : String
  document_id : String
  permission_type : String
  granted_at : String
  granted_by : String
  expires_at : Option String
deriving DecidableEq

/-- One image inside an image group (`images` JSON list entry). -/
structure ImageRec where
  original_name : String
  stored_path : String
deriving DecidableEq

/-- A row of the `image_groups` table. -/
structure GroupRow where
  id : String
  created_at : String
  metadata : Option Meta
  images : List ImageRec
  deleted : Bool
deriving DecidableEq

/-- The whole system state: database tables (insertion order) plus the
filesystem as a `(path, content)` association list. -/
structure DMS where
  documents : List DocRow
  document_versions : List VersionRow
  archived_documents : List ArchivedDocRow
  user_permissions : List PermRow
  image_groups : List GroupRow
  files : List (String × String)
deriving DecidableEq

def emptyDMS : DMS := ⟨[], [], [], [], [], []⟩

/-! ### Filesystem primitives -/

def lookupFile (files : List (String × String)) (p : String) : Option String :=
  (files.find? (fun f => f.1 == p)).map (fun f => f.2)

/-- `shutil.copy2` / write: overwrite any file at `p`. -/
def putFile (files : List (String × String)) (p c : String) : List (String × String) :=
  files.filter (fun f => f.1 != p) ++ [(p, c)]

/-- Injective stand-in for `calculate_file_hash` (streamed SHA-256); no claim
inspects hash values. -/
def hashString (content : String) : String :=
  "sha256:" ++ content

/-! ### Document operations -/

/-- `get_file_type`: classification by lower-cased extension. -/
def extOf (filename : String) : String :=
  let parts := splitOnChar '.' filename.data
  if parts.length ≤ 1 then "" else String.mk ('.' :: parts.getLastD [])

def get_file_type (filename : String) : String :=
  let ext := lowerStr (extOf filename)
  if [".txt", ".md", ".py", ".json", ".csv", ".log"].contains ext then "text"
  else if [".jpg", ".jpeg", ".png", ".gif", ".bmp"].contains ext then "image"
  else if ext == ".pdf" then "pdf"
  else "other"

/-- `get_file_content` for a stored path (text files only; non-text returns
`None`, zero-length content returns the synthetic "Empty file" marker). -/
def get_file_content (files : List (String × String)) (stored_path file_type : String) : Option String :=
  match lookupFile files stored_path with
  | none => none
  | some c => if file_type == "text" then (if c == "" then some "Empty file" else some c) else none

/-- The dictionary returned by `get_document`: the row plus the derived
`file_type` and, for text files, the inlined content. -/
structure DocView where
  row : DocRow
  file_type : String
  content : Option String
deriving DecidableEq

/-- `get_document`: by-id lookup on `documents` with NO filter on `deleted`. -/
def get_document (s : DMS) (docId : String) : Option DocView :=
  match s.documents.find? (fun d => d.id == docId) with
  | none => none
  | some d =>
    let ft := get_file_type d.original_name
    some ⟨d, ft, if ft == "text" then get_file_content s.files d.stored_path "text" else none⟩

/-- `UPDATE documents SET deleted = 1 WHERE id = ? AND deleted = 0`;
returns `rowcount > 0`. -/
def soft_delete_document (s : DMS) (docId : String) : DMS × Bool :=
  ({ s with documents := s.documents.map (fun d =>
      if d.id == docId && d.deleted == false then { d with deleted := true } else d) },
   s.documents.any (fun d => d.id == docId && d.deleted == false))

/-- `UPDATE documents SET deleted = 0 WHERE id = ? AND deleted = 1`;
returns `rowcount > 0`. -/
def restore_document (s : DMS) (docId : String) : DMS × Bool :=
  ({ s with documents := s.documents.map (fun d =>
      if d.id == docId && d.deleted == true then { d with deleted := false } else d) },
   s.documents.any (fun d => d.id == docId && d.deleted == true))

/-- `update_metadata`: stores `json.dumps(new_metadata) if new_metadata else
None` — note the Python truthiness: the empty map is stored as NULL. -/
def update_metadata (s : DMS) (docId : String) (newMetadata : Option Meta) : DMS × Bool :=
  let metaStored : Option Meta :=
    match newMetadata with
    | some m => if m.isEmpty then none else some m
    | none => none
  ({ s with documents := s.documents.map (fun d =>
      if d.id == docId then { d with metadata := metaStored } else d) },
   s.documents.any (fun d => d.id == docId))

/-- The UNIQUE/PRIMARY KEY conflicts that make `add_document`'s insert
transaction raise: duplicate document id, duplicate `stored_path`
(UNIQUE in the schema), or duplicate version-row id. -/
def addInsertFails (s : DMS) (docId versionId stored_path : String) : Bool :=
  s.documents.any (fun d => d.id == docId || d.stored_path == stored_path) ||
  s.document_versions.any (fun v => v.id == versionId)

/-- `add_document`: checks the source file, copies the blob, then inserts the
document row and the initial version row (version 1) in one transaction;
on insert failure it removes the copied blob and raises. -/
def add_document (s : DMS) (filePath : String) (metadata : Option Meta)
    (createdBy : Option String) (docId versionId now storageDir : String) :
    DMS × Except String String :=
  match lookupFile s.files filePath with
  | none => (s, Except.error ("File does not exist: " ++ filePath))
  | some content =>
    let original_name := basename filePath
    let stored_path := storageDir ++ "/" ++ docId ++ "_" ++ original_name
    let file_type := get_file_type original_name
    let content_index := if file_type == "text" then content else ""
    let metaStored : Option Meta :=
      match metadata with
      | some m => if m.isEmpty then none else some m
      | none => none
    let filesCopied := putFile s.files stored_path content
    if addInsertFails s docId versionId stored_path then
      ({ s with files := filesCopied.filter (fun f => f.1 != stored_path) },
       Except.error "Failed to add document to database")
    else
      ({ s with
          files := filesCopied,
          documents := s.documents ++
            [⟨docId, original_name, stored_path, now, 1, metaStored, false,
              some content.length, some (hashString content), some content_index⟩],
          document_versions := s.document_versions ++
            [⟨versionId, docId, 1, original_name, stored_path, now,
              createdBy.getD "system", none, some content.length, some (hashString content)⟩] },
       Except.ok docId)

/-- `archive_document`: move the blob into the archive directory (keeping the
old path when the source blob is missing), `INSERT OR REPLACE` a row into
`archived_documents` (conflicts on id and on the UNIQUE `stored_path`), then
mark the live row `deleted = 1`. -/
def archive_document (s : DMS) (docId archiveDir : String) (deletedBy : Option String)
    (now : String) : DMS × Bool :=
  match s.documents.find? (fun d => d.id == docId) with
  | none => (s, false)
  | some doc =>
    let srcPath := doc.stored_path
    let candidate := archiveDir ++ "/" ++ basename doc.stored_path
    let srcExists := s.files.any (fun f => f.1 == srcPath)
    let archivePath := if srcExists then candidate else srcPath
    let files' :=
      if srcExists then
        (s.files.filter (fun f => f.1 != candidate)).map
          (fun f => if f.1 == srcPath then (candidate, f.2) else f)
      else s.files
    let archRow : ArchivedDocRow :=
      ⟨doc.id, doc.original_name, archivePath, doc.created_at, doc.version,
        doc.metadata, now, deletedBy⟩
    ({ s with
        files := files',
        archived_documents :=
          s.archived_documents.filter
            (fun a => a.id != doc.id && a.stored_path != archivePath) ++ [archRow],
        documents := s.documents.map (fun d =>
          if d.id == docId then { d with deleted := true } else d) },
     true)

/-! ### Versions -/

/-- Rows of `document_versions` belonging to one document, in rowid order. -/
def versionsOf (s : DMS) (docId : String) : List VersionRow :=
  s.document_versions.filter (fun v => v.document_id == docId)

def maxOf (l : List Nat) : Nat := l.foldr max 0

/-- `SELECT MAX(version_number) ... or 0`. -/
def maxVersion (s : DMS) (docId : String) : Nat :=
  maxOf ((versionsOf s docId).map (fun v => v.version_number))

/-- Generic insertion sort; `le x y` means `x` may be placed before `y`.
Models SQL `ORDER BY` and Python's `list.sort`. -/
def insertBy (le : α → α → Bool) (x : α) : List α → List α
  | [] => [x]
  | y :: ys => if le x y then x :: y :: ys else y :: insertBy le x ys

def sortBy (le : α → α → Bool) : List α → List α
  | [] => []
  | x :: xs => insertBy le x (sortBy le xs)

/-- Ordering of `ORDER BY version_number DESC`. -/
def verDescLe (a b : VersionRow) : Bool :=
  decide (b.version_number ≤ a.version_number)

/-- `get_document_versions`: the document's version rows ordered by
`version_number` descending. -/
def get_document_versions (s : DMS) (docId : String) : List VersionRow :=
  sortBy verDescLe (versionsOf s docId)

/-- The PRIMARY KEY conflict that makes the version insert raise. -/
def versionInsertFails (s : DMS) (versionId : String) : Bool :=
  s.document_versions.any (fun v => v.id == versionId)

/-- `create_document_version`: requires the new file and the document to
exist, computes `max(existing) + 1`, copies the blob under a version-specific
name, then inserts the version row and updates the parent's `version` pointer
in one transaction (compensating by deleting the blob on failure). -/
def create_document_version (s : DMS) (docId newFilePath createdBy changeDescription : String)
    (versionId now storageDir : String) : DMS × Except String String :=
  match lookupFile s.files newFilePath with
  | none => (s, Except.error ("File does not exist: " ++ newFilePath))
  | some content =>
    match get_document s docId with
    | none => (s, Except.error "Document not found")
    | some _ =>
      let newVersion := maxVersion s docId + 1
      let original_name := basename newFilePath
      let stored_path := storageDir ++ "/" ++ versionId ++ "_" ++ original_name
      let filesCopied := putFile s.files stored_path content
      if versionInsertFails s versionId then
        ({ s with files := filesCopied.filter (fun f => f.1 != stored_path) },
         Except.error "Failed to create document version")
      else
        ({ s with
            files := filesCopied,
            document_versions := s.document_versions ++
              [⟨versionId, docId, newVersion, original_name, stored_path, now,
                createdBy, some changeDescription, some content.length,
                some (hashString content)⟩],
            documents := s.documents.map (fun d =>
              if d.id == docId then { d with version := newVersion } else d) },
         Except.ok versionId)

/-! ### Image groups -/

/-- Ordering of `ORDER BY created_at DESC` on image groups. -/
def groupDescLe (a b : GroupRow) : Bool :=
  lexLe b.created_at.data a.created_at.data

def list_image_groups (s : DMS) (includeDeleted : Bool) : List GroupRow :=
  sortBy groupDescLe
    (if includeDeleted then s.image_groups else s.image_groups.filter (fun g => g.deleted == false))

/-- `get_image_group`: by-id lookup WITH the `deleted = 0` filter (unlike
`get_document`). -/
def get_image_group (s : DMS) (groupId : String) : Option GroupRow :=
  s.image_groups.find? (fun g => g.id == groupId && g.deleted == false)

/-! ### Permissions -/

/-- `permission_levels` lookup: `{'read': 1, 'write': 2, 'admin': 3,
'delete': 4}.get`. -/
def level_of (p : String) : Option Nat :=
  if p == "read" then some 1
  else if p == "write" then some 2
  else if p == "admin" then some 3
  else if p == "delete" then some 4
  else none

/-- `expires_at IS NULL OR expires_at > now` (TEXT comparison). -/
def notExpired (p : PermRow) (now : String) : Bool :=
  match p.expires_at with
  | none => true
  | some e => lexLt now.data e.data

/-- `set_document_permission`: `INSERT OR REPLACE` with a FRESH uuid primary
key; the only UNIQUE constraint on `user_permissions` is the primary key
`id`, so with a fresh `permId` nothing is ever replaced. -/
def set_document_permission (s : DMS) (docId userId permissionType grantedBy : String)
    (expiresAt : Option String) (permId now : String) : DMS × Bool :=
  ({ s with user_permissions :=
      s.user_permissions.filter (fun p => p.id != permId) ++
        [⟨permId, userId, docId, permissionType, now, grantedBy, expiresAt⟩] },
   true)

/-- `check_user_permission`: `fetchone()` on the unexpired grants of the pair
— the FIRST matching row in rowid order — compared by rank against the
required level (unknown required level defaults to 1, unknown stored level
to 0). -/
def check_user_permission (s : DMS) (docId userId required now : String) : Bool :=
  let requiredLevel := (level_of required).getD 1
  match s.user_permissions.find?
      (fun p => p.document_id == docId && p.user_id == userId && notExpired p now) with
  | some p => decide ((level_of p.permission_type).getD 0 ≥ requiredLevel)
  | none => false

/-! ### Advanced search -/

/-- Filters dictionary of `advanced_search`; an absent key is `none`. -/
structure SearchFilters where
  date_from : Option String
  date_to : Option String
  file_type : Option String
  size_min : Option Nat
  size_max : Option Nat
  status : Option String
deriving DecidableEq

/-- The empty / absent filters dictionary. -/
def noFilters : SearchFilters := ⟨none, none, none, none, none, none⟩

/-- Python truthiness for `'k' in filters and filters['k']` on a string
value: present and non-empty. -/
def truthyStr : Option String → Option String
  | none => none
  | some v => if v == "" then none else some v

/-- Python truthiness for a numeric filter value: present and non-zero. -/
def truthyNat : Option Nat → Option Nat
  | none => none
  | some v => if v == 0 then none else some v

/-- SQL `col LIKE '%pat%'` on a nullable column: NULL never matches. -/
def optLike (col : Option String) (pat : String) : Bool :=
  match col with
  | none => false
  | some v => likeCI v pat

/-- One per-token clause of the documents text search:
`(original_name LIKE %t% OR content_index LIKE %t% OR metadata LIKE %t%)`. -/
def tokenMatchesDoc (t : String) (d : DocRow) : Bool :=
  likeCI d.original_name t || optLike d.content_index t || optLike (d.metadata.map dumps) t

/-- The text-search condition on documents: the per-token clauses are joined
with `' OR '` in the source, so ANY token matching somewhere suffices. -/
def docTextMatch (q : String) (d : DocRow) : Bool :=
  if q == "" then true
  else (splitWs q).any (fun t => tokenMatchesDoc t d)

/-- The optional filter conditions on documents, ANDed; note the size values
are multiplied by 1024 (the source comments say "Convert KB to bytes"), and a
NULL `file_size` never satisfies a size comparison. -/
def docFiltersMatch (f : SearchFilters) (d : DocRow) : Bool :=
  (match truthyStr f.date_from with
    | none => true
    | some v => lexLe v.data d.created_at.data) &&
  (match truthyStr f.date_to with
    | none => true
    | some v => lexLe d.created_at.data v.data) &&
  (match truthyStr f.file_type with
    | none => true
    | some v => endsWithCI d.original_name ("." ++ v)) &&
  (match truthyNat f.size_min with
    | none => true
    | some v =>
      match d.file_size with
      | none => false
      | some n => decide (v * 1024 ≤ n)) &&
  (match truthyNat f.size_max with
    | none => true
    | some v =>
      match d.file_size with
      | none => false
      | some n => decide (n ≤ v * 1024)) &&
  (match truthyStr f.status with
    | none => true
    | some v => optLike (d.metadata.map dumps) ("\"status\": \"" ++ v ++ "\""))

/-- The permission gate of the documents query: with a (truthy) `user_id`,
the LEFT JOIN row must satisfy
`up.user_id = ? OR up.permission_type = 'read' OR up.permission_type = 'admin'`. -/
def permGate (uid : Option String) (perms : List PermRow) (d : DocRow) : Bool :=
  match uid with
  | none => true
  | some u =>
    if u == "" then true
    else perms.any (fun p =>
      p.document_id == d.id &&
        (p.user_id == u || p.permission_type == "read" || p.permission_type == "admin"))

/-- The full WHERE clause of the documents half of `advanced_search`. -/
def docWhere (q : String) (f : SearchFilters) (uid : Option String)
    (perms : List PermRow) (d : DocRow) : Bool :=
  d.deleted == false && permGate uid perms d && docTextMatch q d && docFiltersMatch f d

/-- Text match for image groups: lower-cased tokens against the group's
`metadata.name` and joined `metadata.tags`; any token matching suffices. -/
def groupTextMatch (q : String) (g : GroupRow) : Bool :=
  if q == "" then true
  else
    let terms := splitWs (lowerStr q)
    let name := lowerStr (metaGetStrD g.metadata "name" "")
    let tags := lowerStr (joinSep " " (metaGetArr g.metadata "tags"))
    terms.any (fun t => containsSub name.data t.data || containsSub tags.data t.data)

/-- Filter conditions applied to image groups: dates and status only (exact
status comparison here, unlike the LIKE used for documents); no size filter. -/
def groupFiltersMatch (f : SearchFilters) (g : GroupRow) : Bool :=
  (match truthyStr f.date_from with
    | none => true
    | some v => lexLe v.data g.created_at.data) &&
  (match truthyStr f.date_to with
    | none => true
    | some v => lexLe g.created_at.data v.data) &&
  (match truthyStr f.status with
    | none => true
    | some v => metaGetStrD g.metadata "status" "" == v)

/-- A result dictionary of `advanced_search` (document rows carry no
`is_image_group` key, modelled as `false`). -/
structure SearchResult where
  id : String
  original_name : String
  stored_path : Option String
  created_at : String
  version : Nat
  metadata : Option Meta
  file_size : Option Nat
  file_hash : Option String
  content_index : Option String
  is_image_group : Bool
  image_count : Nat
deriving DecidableEq

def docToResult (d : DocRow) : SearchResult :=
  ⟨d.id, d.original_name, some d.stored_path, d.created_at, d.version, d.metadata,
    d.file_size, d.file_hash, d.content_index, false, 0⟩

def groupToResult (g : GroupRow) : SearchResult :=
  ⟨g.id, metaGetStrD g.metadata "name" "Image Group", none, g.created_at, 1,
    g.metadata, none, none, none, true, g.images.length⟩

/-- Ordering of `ORDER BY created_at DESC` / `sort(key=created_at,
reverse=True)` on results. -/
def resDescLe (a b : SearchResult) : Bool :=
  lexLe b.created_at.data a.created_at.data

/-- Ordering of `ORDER BY d.created_at DESC` on document rows. -/
def docDescLe (a b : DocRow) : Bool :=
  lexLe b.created_at.data a.created_at.data

/-- `advanced_search`: SQL query over documents (WHERE clause `docWhere`,
ordered by `created_at` descending, LIMIT), then the in-Python scan of
non-deleted image groups, then a merged sort by `created_at` descending
truncated to `limit`. -/
def advanced_search (s : DMS) (q : String) (f : SearchFilters) (uid : Option String)
    (limit : Nat) : List SearchResult :=
  let docResults :=
    ((sortBy docDescLe (s.documents.filter (docWhere q f uid s.user_permissions))).take limit).map
      docToResult
  let groupResults :=
    ((list_image_groups s false).filter
      (fun g => groupTextMatch q g && groupFiltersMatch f g)).map groupToResult
  (sortBy resDescLe (docResults ++ groupResults)).take limit

/-! ### Concrete states used by witnesses and counterexamples -/

def docA : DocRow :=
  ⟨"doc1", "alpha.txt", "storage/doc1_alpha.txt", "2024-01-01T00:00:00", 1, none,
    false, some 5, some "hashA", none⟩

def stateA : DMS := ⟨[docA], [], [], [], [], []⟩

def docB : DocRow :=
  ⟨"doc2", "b.bin", "storage/doc2_b.bin", "2024-01-02T00:00:00", 1, none,
    false, some 500, some "hashB", none⟩

def stateB : DMS := ⟨[docB], [], [], [], [], []⟩

def docC : DocRow :=
  ⟨"doc3", "c.txt", "storage/doc3_c.txt", "2024-01-03T00:00:00", 1,
    some [("k", MVal.str "v")], false, some 1, some "hashC", some "x"⟩

def stateC : DMS := ⟨[docC], [], [], [], [], []⟩

def permRead1 : PermRow := ⟨"p1", "bob", "doc1", "read", "t0", "admin", none⟩

def permWrite1 : PermRow := ⟨"p2", "bob", "doc1", "write", "t1", "admin", none⟩

def statePerms : DMS := ⟨[], [], [], [permRead1, permWrite1], [], []⟩

def stateOneGrant : DMS := ⟨[], [], [], [permWrite1], [], []⟩

def groupG : GroupRow := ⟨"g1", "2024-01-01", some [("name", MVal.str "Trip")], [], true⟩

def stateG : DMS := ⟨[docA], [], [], [], [groupG], []⟩

def verC1 : VersionRow :=
  ⟨"v1", "doc3", 1, "c.txt", "storage/doc3_c.txt", "t", "u", none, some 1, some "hashC"⟩

def stateV : DMS := ⟨[docC], [verC1], [], [], [], [("src/new.txt", "hello")]⟩

def stateF : DMS := ⟨[docC], [], [], [], [], [("storage/doc3_c.txt", "hi")]⟩

def docDup : DocRow :=
  ⟨"other", "a.txt", "storage/dup_a.txt", "2024-01-04T00:00:00", 1, none,
    false, some 1, some "hashD", none⟩

def stateDup : DMS := ⟨[docDup], [], [], [], [], [("src/a.txt", "content")]⟩

/-! ### The versioning invariant (claim C5) -/

/-- Primary-key uniqueness of `documents.id`. -/
def docIdsNodup (s : DMS) : Prop :=
  (s.documents.map (fun d => d.id)).Nodup

/-- The versioning invariant: document ids are unique, every version row
belongs to an existing document, and every document's multiset of
`version_number`s is exactly `1..version` (so `version` is their maximum and
the numbers are gapless). -/
def versionInvariant (s : DMS) : Prop :=
  docIdsNodup s ∧
  (∀ v ∈ s.document_versions, ∃ d ∈ s.documents, d.id = v.document_id) ∧
  (∀ d ∈ s.documents,
    ((versionsOf s d.id).map (fun v => v.version_number)).Perm (List.range' 1 d.version))

end DocSys

namespace DocSys

/-! ### Helper lemmas -/

theorem eq_of_mem_of_length_le_one {α : Type} {l : List α} (h : l.length ≤ 1) {a b : α}
    (ha : a ∈ l) (hb : b ∈ l) : a = b := by
  match l with
  | [] => cases ha
  | [x] => rw [List.mem_singleton.mp ha, List.mem_singleton.mp hb]
  | x :: y :: t => simp at h

/-- In a table whose `key` column has no duplicates, the by-key `find?`
returns exactly the member row. -/
theorem find?_eq_of_mem_nodup {α β : Type} [BEq β] [LawfulBEq β] (key : α → β)
    {l : List α} {a : α} (hnd : (l.map key).Nodup) (ha : a ∈ l) :
    l.find? (fun x => key x == key a) = some a := by
  induction l with
  | nil => cases ha
  | cons b t ih =>
    simp only [List.map_cons, List.nodup_cons] at hnd
    rcases List.mem_cons.mp ha with rfl | hat
    · simp [List.find?_cons]
    · have hne : (key b == key a) = false := by
        refine beq_eq_false_iff_ne.mpr fun h => hnd.1 ?_
        exact h ▸ List.mem_map_of_mem key hat
      rw [List.find?_cons, hne, ih hnd.2 hat]

/-- A by-id `UPDATE` (`map` with an id-preserving rewrite) leaves the by-id
`find?` pointing at a rewritten row. -/
theorem find?_map_update {l : List DocRow} {docId : String} (upd : DocRow → DocRow)
    (hid : ∀ d, (upd d).id = d.id) (hex : ∃ d ∈ l, d.id = docId) :
    ∃ d ∈ l, d.id = docId ∧
      (l.map (fun d => if d.id == docId then upd d else d)).find? (fun x => x.id == docId)
        = some (upd d) := by
  induction l with
  | nil => simp at hex
  | cons b t ih =>
    by_cases hb : b.id = docId
    · refine ⟨b, List.mem_cons_self b t, hb, ?_⟩
      rw [List.map_cons, if_pos (beq_iff_eq.mpr hb), List.find?_cons,
        show ((upd b).id == docId) = true from beq_iff_eq.mpr ((hid b).trans hb)]
    · obtain ⟨d, hd, hdid⟩ := hex
      have hdt : d ∈ t := by
        rcases List.mem_cons.mp hd with rfl | h
        · exact absurd hdid hb
        · exact h
      obtain ⟨d', hd', hid', hfind⟩ := ih ⟨d, hdt, hdid⟩
      refine ⟨d', List.mem_cons_of_mem b hd', hid', ?_⟩
      rw [List.map_cons, if_neg (by simp [hb]), List.find?_cons,
        show (b.id == docId) = false from beq_eq_false_iff_ne.mpr hb, hfind]

theorem insertBy_perm {α : Type} (le : α → α → Bool) (x : α) (l : List α) :
    (insertBy le x l).Perm (x :: l) := by
  induction l with
  | nil => exact List.Perm.refl _
  | cons y ys ih =>
    rw [insertBy]
    split
    · exact List.Perm.refl _
    · exact (List.Perm.cons y ih).trans (List.Perm.swap x y ys)

theorem sortBy_perm {α : Type} (le : α → α → Bool) (l : List α) :
    (sortBy le l).Perm l := by
  induction l with
  | nil => exact List.Perm.refl _
  | cons x xs ih => exact (insertBy_perm le x (sortBy le xs)).trans (List.Perm.cons x ih)

theorem mem_sortBy {α : Type} {le : α → α → Bool} {l : List α} {a : α} :
    a ∈ sortBy le l ↔ a ∈ l :=
  (sortBy_perm le l).mem_iff

theorem mem_insertBy {α : Type} {le : α → α → Bool} {l : List α} {x a : α} :
    a ∈ insertBy le x l ↔ a = x ∨ a ∈ l := by
  rw [(insertBy_perm le x l).mem_iff, List.mem_cons]

theorem insertBy_pairwise {α : Type} {le : α → α → Bool}
    (htrans : ∀ a b c, le a b = true → le b c = true → le a c = true)
    (htot : ∀ a b, le a b = true ∨ le b a = true)
    {x : α} {l : List α} (h : l.Pairwise (fun a b => le a b = true)) :
    (insertBy le x l).Pairwise (fun a b => le a b = true) := by
  induction l with
  | nil => simp [insertBy]
  | cons y ys ih =>
    rw [insertBy]
    rcases List.pairwise_cons.mp h with ⟨hy, hys⟩
    split
    · rename_i hxy
      exact List.pairwise_cons.mpr
        ⟨fun z hz => by
          rcases List.mem_cons.mp hz with rfl | hzys
          · exact hxy
          · exact htrans x y z hxy (hy z hzys), h⟩
    · rename_i hxy
      have hyx : le y x = true := (htot x y).resolve_left hxy
      exact List.pairwise_cons.mpr
        ⟨fun z hz => by
          rcases mem_insertBy.mp hz with rfl | hzys
          · exact hyx
          · exact hy z hzys, ih hys⟩

theorem sortBy_pairwise {α : Type} {le : α → α → Bool}
    (htrans : ∀ a b c, le a b = true → le b c = true → le a c = true)
    (htot : ∀ a b, le a b = true ∨ le b a = true) (l : List α) :
    (sortBy le l).Pairwise (fun a b => le a b = true) := by
  induction l with
  | nil => simp [sortBy]
  | cons x xs ih => exact insertBy_pairwise htrans htot ih

theorem le_maxOf {l : List Nat} {x : Nat} (hx : x ∈ l) : x ≤ maxOf l := by
  induction l with
  | nil => cases hx
  | cons y ys ih =>
    rcases List.mem_cons.mp hx with rfl | h
    · exact Nat.le_max_left _ _
    · exact Nat.le_trans (ih h) (Nat.le_max_right _ _)

theorem maxOf_le {l : List Nat} {n : Nat} (h : ∀ x ∈ l, x ≤ n) : maxOf l ≤ n := by
  induction l with
  | nil => exact Nat.zero_le n
  | cons y ys ih =>
    exact Nat.max_le.mpr ⟨h y (List.mem_cons_self y ys),
      ih fun x hx => h x (List.mem_cons_of_mem y hx)⟩

theorem maxOf_perm_range' {l : List Nat} {N : Nat} (h : l.Perm (List.range' 1 N)) :
    maxOf l = N := by
  cases N with
  | zero =>
    have : l = [] := List.length_eq_zero.mp (by rw [h.length_eq]; rfl)
    rw [this]
    rfl
  | succ n =>
    apply Nat.le_antisymm
    · apply maxOf_le
      intro x hx
      have := List.mem_range'_1.mp (h.mem_iff.mp hx)
      omega
    · apply le_maxOf
      apply h.mem_iff.mpr
      apply List.mem_range'_1.mpr
      omega

theorem verDescLe_trans :
    ∀ a b c : VersionRow, verDescLe a b = true → verDescLe b c = true →
      verDescLe a c = true := by
  intro a b c h1 h2
  exact decide_eq_true (Nat.le_trans (of_decide_eq_true h2) (of_decide_eq_true h1))

theorem verDescLe_total :
    ∀ a b : VersionRow, verDescLe a b = true ∨ verDescLe b a = true := by
  intro a b
  rcases Nat.le_total b.version_number a.version_number with h | h
  · exact Or.inl (decide_eq_true h)
  · exact Or.inr (decide_eq_true h)

/-- If a document's version multiset is exactly `1..N`, the version listing
ordered by `version_number` descending is exactly `N, N-1, ..., 1`. -/
theorem get_document_versions_desc (s : DMS) (docId : String) (N : Nat)
    (h : ((versionsOf s docId).map (fun v => v.version_number)).Perm (List.range' 1 N)) :
    (get_document_versions s docId).map (fun v => v.version_number)
      = (List.range' 1 N).reverse := by
  haveI : IsAntisymm Nat (fun a b => b ≤ a) := ⟨fun a b h1 h2 => Nat.le_antisymm h2 h1⟩
  apply List.eq_of_perm_of_sorted (r := fun a b : Nat => b ≤ a)
  · exact ((sortBy_perm verDescLe _).map _).trans (h.trans (List.reverse_perm _).symm)
  · rw [List.Sorted, List.pairwise_map]
    exact (sortBy_pairwise verDescLe_trans verDescLe_total _).imp
      fun hab => of_decide_eq_true hab
  · rw [List.Sorted, List.pairwise_reverse]
    exact (List.pairwise_lt_range' 1 N).imp fun hlt => Nat.le_of_lt hlt

/-! ### Claim C1 -/

/-- Claim C1 is a code bug: `set_document_permission` uses `INSERT OR
REPLACE` with a freshly generated uuid primary key, and `user_permissions`
has no UNIQUE constraint on `(user_id, document_id)`, so a second grant for
the same pair never replaces the first.  Evaluating the code at the failing
input: granting read then write to the same user on the same document leaves
TWO rows for the pair, and a subsequent `check_user_permission` for `write`
reflects the first (read) grant, not the latest, returning `false`. -/
theorem set_document_permission_accumulates :
    ((set_document_permission
        (set_document_permission emptyDMS "doc" "bob" "read" "admin" none "pid1" "t1").1
        "doc" "bob" "write" "admin" none "pid2" "t2").1.user_permissions.filter
          (fun p => p.user_id == "bob" && p.document_id == "doc")).length = 2 ∧
    check_user_permission
        (set_document_permission
          (set_document_permission emptyDMS "doc" "bob" "read" "admin" none "pid1" "t1").1
          "doc" "bob" "write" "admin" none "pid2" "t2").1 "doc" "bob" "write" "t3" = false := by
  decide

/-! ### Claim C4 -/

/-- Claim C4 counterexample: updating the metadata of an existing document
with the EMPTY map succeeds (`true`), but `get_document` then reports the
metadata column as NULL (`none`), not as the empty map — the Python code
stores `json.dumps(m) if m else None`, and the empty dict is falsy. -/
theorem update_metadata_empty_map_counterexample :
    (update_metadata stateC "doc3" (some [])).2 = true ∧
    (get_document (update_metadata stateC "doc3" (some [])).1 "doc3").map
        (fun v => v.row.metadata) = some none := by
  decide

/-- Claim C4 (amended): the `updateMetadata` / `getDocument` round-trip holds
for every NON-EMPTY metadata map; the empty map is stored as NULL and read
back as null metadata rather than as the empty map. -/
theorem update_metadata_roundtrip_nonempty (s : DMS) (docId : String) (m : Meta)
    (hm : m ≠ []) (hex : ∃ d ∈ s.documents, d.id = docId) :
    (update_metadata s docId (some m)).2 = true ∧
    ∃ v, get_document (update_metadata s docId (some m)).1 docId = some v ∧
      v.row.metadata = some m := by
  have hme : m.isEmpty = false := by
    cases m with
    | nil => exact absurd rfl hm
    | cons a t => rfl
  constructor
  · obtain ⟨d, hd, hdid⟩ := hex
    simp only [update_metadata]
    exact List.any_eq_true.mpr ⟨d, hd, beq_iff_eq.mpr hdid⟩
  · have hms : (if m.isEmpty = true then (none : Option Meta) else some m) = some m := by
      rw [hme]; rfl
    simp only [update_metadata, hms, get_document]
    obtain ⟨d, hd, hdid, hfind⟩ :=
      find?_map_update (fun d => { d with metadata := some m }) (fun d => rfl) hex
    rw [hfind]
    exact ⟨_, rfl, rfl⟩

/-- Witness for the amended C4 at a concrete state. -/
theorem update_metadata_roundtrip_nonempty_witness :
    (update_metadata stateC "doc3" (some [("a", MVal.str "b")])).2 = true ∧
    ∃ v, get_document (update_metadata stateC "doc3" (some [("a", MVal.str "b")])).1 "doc3"
        = some v ∧ v.row.metadata = some [("a", MVal.str "b")] :=
  update_metadata_roundtrip_nonempty stateC "doc3" [("a", MVal.str "b")]
    (by decide) (by decide)

/-! ### Claim C8 -/

/-- Claim C8: soft delete and restore are guarded by the opposite current
state.  Soft-deleting twice in a row makes the second call return `false`
(after the first call no row with this id is still undeleted), and restoring
a document that is not currently deleted returns `false`. -/
theorem soft_delete_restore_guarded :
    (∀ s docId, (soft_delete_document (soft_delete_document s docId).1 docId).2 = false) ∧
    (∀ s docId, (∀ d ∈ s.documents, d.id = docId → d.deleted = false) →
      (restore_document s docId).2 = false) := by
  constructor
  · intro s docId
    simp only [soft_delete_document, List.any_map, List.any_eq_false, Function.comp]
    intro d _
    by_cases h : (d.id == docId && d.deleted == false) = true
    · simp only [h, if_true]
      simp
    · simp only [h, if_false]
      simpa using h
  · intro s docId hnone
    simp only [restore_document, List.any_eq_false]
    intro d hd
    by_cases h : d.id = docId
    · simp [hnone d hd h]
    · simp [h]

/-- Witness for C8 at a concrete state (an existing, undeleted document). -/
theorem soft_delete_restore_guarded_witness :
    (soft_delete_document (soft_delete_document stateC "doc3").1 "doc3").2 = false ∧
    (restore_document stateC "doc3").2 = false :=
  ⟨soft_delete_restore_guarded.1 stateC "doc3",
   soft_delete_restore_guarded.2 stateC "doc3" (by decide)⟩

/-! ### Claim C9 -/

/-- Claim C9 counterexample: with two stored grants for the pair
(bob, doc1) — first `read`, then `write`, neither expired — a non-expired
`write` grant exists whose rank (2) is at least the rank of `write`, yet
`check_user_permission` returns `false`: `fetchone()` consults only the
FIRST matching row (the read grant). -/
theorem check_permission_ignores_later_grants :
    check_user_permission statePerms "doc1" "bob" "write" "t2" = false ∧
    statePerms.user_permissions.any (fun p =>
      p.document_id == "doc1" && p.user_id == "bob" && notExpired p "t2" &&
        decide ((level_of p.permission_type).getD 0 ≥ (level_of "write").getD 1)) = true := by
  decide

/-- Claim C9 (amended): when at most one grant row exists for the
(user, document) pair — the invariant the upsert was meant to maintain —
`check_user_permission` returns `true` exactly when a stored grant for the
pair exists whose rank (read=1, write=2, admin=3, delete=4, via `level_of`)
is at least the rank of the required level and whose `expires_at` is null or
in the future.  With several grant rows only the first stored row is
consulted. -/
theorem check_user_permission_of_at_most_one_grant (s : DMS)
    (docId userId required now : String)
    (hone : (s.user_permissions.filter
        (fun p => p.document_id == docId && p.user_id == userId)).length ≤ 1) :
    (check_user_permission s docId userId required now = true ↔
      ∃ p ∈ s.user_permissions, p.document_id = docId ∧ p.user_id = userId ∧
        notExpired p now = true ∧
        (level_of p.permission_type).getD 0 ≥ (level_of required).getD 1) := by
  simp only [check_user_permission]
  cases hfind : s.user_permissions.find?
      (fun p => p.document_id == docId && p.user_id == userId && notExpired p now) with
  | none =>
    simp only [Bool.false_eq_true, false_iff]
    rintro ⟨p, hp, h1, h2, h3, _⟩
    have := List.find?_eq_none.mp hfind p hp
    simp [h1, h2, h3] at this
  | some p =>
    have hpred := List.find?_some hfind
    simp only [Bool.and_eq_true, beq_iff_eq] at hpred
    obtain ⟨⟨h1, h2⟩, h3⟩ := hpred
    have hpmem := List.mem_of_find?_eq_some hfind
    constructor
    · intro hlev
      exact ⟨p, hpmem, h1, h2, h3, of_decide_eq_true hlev⟩
    · rintro ⟨p', hp', c1, c2, c3, c4⟩
      have hpf : p ∈ s.user_permissions.filter
          (fun p => p.document_id == docId && p.user_id == userId) :=
        List.mem_filter.mpr ⟨hpmem, by simp [h1, h2]⟩
      have hpf' : p' ∈ s.user_permissions.filter
          (fun p => p.document_id == docId && p.user_id == userId) :=
        List.mem_filter.mpr ⟨hp', by simp [c1, c2]⟩
      have : p = p' := eq_of_mem_of_length_le_one hone hpf hpf'
      exact decide_eq_true (this ▸ c4)

/-- Witness for the amended C9: a single non-expired `write` grant satisfies
a `read` check (rank 2 ≥ rank 1). -/
theorem check_user_permission_of_at_most_one_grant_witness :
    check_user_permission stateOneGrant "doc1" "bob" "read" "t2" = true ↔
      ∃ p ∈ stateOneGrant.user_permissions, p.document_id = "doc1" ∧ p.user_id = "bob" ∧
        notExpired p "t2" = true ∧
        (level_of p.permission_type).getD 0 ≥ (level_of "read").getD 1 :=
  check_user_permission_of_at_most_one_grant stateOneGrant "doc1" "bob" "read" "t2" (by decide)

/-! ### Claim C10 -/

/-- Claim C10: the by-id lookup for image groups filters out soft-deleted
rows (`WHERE id = ? AND deleted = 0`), returning null for a deleted group,
whereas the by-id document lookup has no deleted filter and returns the row
whatever its deleted flag. -/
theorem get_image_group_vs_get_document (s : DMS) (g : GroupRow) (d : DocRow)
    (hgnd : (s.image_groups.map (fun x => x.id)).Nodup) (hg : g ∈ s.image_groups)
    (hgdel : g.deleted = true)
    (hdnd : (s.documents.map (fun x => x.id)).Nodup) (hd : d ∈ s.documents) :
    get_image_group s g.id = none ∧
    ∃ v, get_document s d.id = some v ∧ v.row = d := by
  constructor
  · refine List.find?_eq_none.mpr fun x hx => ?_
    by_cases hxid : x.id = g.id
    · have : x = g := List.inj_on_of_nodup_map hgnd hx hg hxid
      simp [this, hgdel]
    · simp [hxid]
  · have hfind := find?_eq_of_mem_nodup (fun x : DocRow => x.id) hdnd hd
    simp only [get_document, hfind]
    exact ⟨_, rfl, rfl⟩

/-- Witness for C10: a deleted image group next to an (undeleted) document. -/
theorem get_image_group_vs_get_document_witness :
    get_image_group stateG "g1" = none ∧
    ∃ v, get_document stateG "doc1" = some v ∧ v.row = docA := by
  have h := get_image_group_vs_get_document stateG groupG docA
    (by decide) (by decide) (by decide) (by decide) (by decide)
  exact h

/-! ### Claims C2 and C3: membership in `advanced_search` results -/

/-- With no image groups and a limit at least the table size, the results of
`advanced_search` are exactly the rows passing the documents WHERE clause. -/
theorem mem_advanced_search_docs (s : DMS) (q : String) (f : SearchFilters) (limit : Nat)
    (hg : s.image_groups = []) (hlim : s.documents.length ≤ limit) (r : SearchResult) :
    r ∈ advanced_search s q f none limit ↔
      ∃ d ∈ s.documents, docWhere q f none s.user_permissions d = true ∧ r = docToResult d := by
  have hgr : list_image_groups s false = [] := by
    simp [list_image_groups, hg, sortBy]
  have hflen : (s.documents.filter (docWhere q f none s.user_permissions)).length ≤ limit :=
    le_trans (List.length_filter_le _ _) hlim
  have h1 : (sortBy docDescLe (s.documents.filter (docWhere q f none s.user_permissions))).take
        limit
      = sortBy docDescLe (s.documents.filter (docWhere q f none s.user_permissions)) :=
    List.take_of_length_le (by rw [(sortBy_perm _ _).length_eq]; exact hflen)
  rw [advanced_search, hgr]
  simp only [List.filter_nil, List.map_nil, List.append_nil, h1]
  rw [List.take_of_length_le
    (by
      rw [(sortBy_perm resDescLe _).length_eq, List.length_map,
        (sortBy_perm docDescLe _).length_eq]
      exact hflen)]
  rw [mem_sortBy, List.mem_map]
  constructor
  · rintro ⟨d, hd, rfl⟩
    rw [mem_sortBy, List.mem_filter] at hd
    exact ⟨d, hd.1, hd.2, rfl⟩
  · rintro ⟨d, hd, hw, rfl⟩
    refine ⟨d, ?_, rfl⟩
    rw [mem_sortBy, List.mem_filter]
    exact ⟨hd, hw⟩

/-- Claim C2 counterexample: with the two-token query "alpha zzz" over a
corpus holding one document named "alpha.txt" (no content index, no
metadata), the document is returned even though the token "zzz" matches none
of its fields — the per-token clauses are ORed, not ANDed. -/
theorem advanced_search_tokens_counterexample :
    advanced_search stateA "alpha zzz" noFilters none 10 = [docToResult docA] ∧
    tokenMatchesDoc "zzz" docA = false := by
  decide

/-- Claim C2 (amended): the per-token clauses of the text search are joined
with OR, so for a whitespace-tokenized query a (non-deleted) document is
returned exactly when AT LEAST ONE token matches one of original_name,
content_index, or serialized metadata (and the optional filters pass); a
document matching only some of the tokens is still included. -/
theorem advanced_search_tokens_or (s : DMS) (q : String) (f : SearchFilters) (limit : Nat)
    (d : DocRow)
    (hnd : (s.documents.map (fun x => x.id)).Nodup)
    (hg : s.image_groups = [])
    (hlim : s.documents.length ≤ limit)
    (hd : d ∈ s.documents)
    (hq : splitWs q ≠ []) :
    (∃ r ∈ advanced_search s q f none limit, r.id = d.id) ↔
      (d.deleted = false ∧ (splitWs q).any (fun t => tokenMatchesDoc t d) = true ∧
        docFiltersMatch f d = true) := by
  have hqne : (q == "") = false := by
    refine beq_eq_false_iff_ne.mpr fun h => hq ?_
    rw [h]
    rfl
  have hwhere : docWhere q f none s.user_permissions d = true ↔
      (d.deleted = false ∧ (splitWs q).any (fun t => tokenMatchesDoc t d) = true ∧
        docFiltersMatch f d = true) := by
    simp only [docWhere, permGate, docTextMatch, hqne, Bool.false_eq_true, if_false,
      Bool.and_eq_true, Bool.true_and, beq_iff_eq]
    tauto
  constructor
  · rintro ⟨r, hr, hrid⟩
    obtain ⟨d', hd', hw', rfl⟩ := (mem_advanced_search_docs s q f limit hg hlim r).mp hr
    have : d' = d := List.inj_on_of_nodup_map hnd hd' hd hrid
    subst this
    exact hwhere.mp hw'
  · intro h
    exact ⟨docToResult d,
      (mem_advanced_search_docs s q f limit hg hlim _).mpr ⟨d, hd, hwhere.mpr h, rfl⟩, rfl⟩

/-- Witness for the amended C2: the query "alpha zzz" returns the document
whose name matches only the first token. -/
theorem advanced_search_tokens_or_witness :
    (∃ r ∈ advanced_search stateA "alpha zzz" noFilters none 10, r.id = docA.id) ↔
      (docA.deleted = false ∧
        (splitWs "alpha zzz").any (fun t => tokenMatchesDoc t docA) = true ∧
        docFiltersMatch noFilters docA = true) :=
  advanced_search_tokens_or stateA "alpha zzz" noFilters 10 docA
    (by decide) (by decide) (by decide) (by decide) (by decide)

/-- Claim C3 counterexample: with `size_max = 1` interpreted as bytes the
500-byte document `doc2` must be excluded, but `advanced_search` returns it:
the filter value is multiplied by 1024 (treated as kibibytes), and
500 ≤ 1 · 1024. -/
theorem advanced_search_size_counterexample :
    advanced_search stateB "" ⟨none, none, none, none, some 1, none⟩ none 10
        = [docToResult docB] ∧
    ¬ (500 ≤ 1) := by
  decide

/-- Claim C3 (amended): the `size_min`/`size_max` filter values are
interpreted as kibibytes — each is multiplied by 1024 before being compared
against `file_size` in bytes — and (with no query, no other filters, no
image groups, a large enough limit, and non-zero filter values, zero being
falsy and disabling the filter) the search returns exactly the non-deleted
documents with `size_min * 1024 ≤ file_size ≤ size_max * 1024`. -/
theorem advanced_search_size_filter_kib (s : DMS) (limit : Nat) (a b n : Nat) (d : DocRow)
    (hnd : (s.documents.map (fun x => x.id)).Nodup)
    (hg : s.image_groups = [])
    (hlim : s.documents.length ≤ limit)
    (hd : d ∈ s.documents)
    (hfs : d.file_size = some n)
    (ha : a ≠ 0) (hb : b ≠ 0) :
    (∃ r ∈ advanced_search s "" ⟨none, none, none, some a, some b, none⟩ none limit,
        r.id = d.id) ↔
      (d.deleted = false ∧ a * 1024 ≤ n ∧ n ≤ b * 1024) := by
  have hane : (a == 0) = false := beq_eq_false_iff_ne.mpr ha
  have hbne : (b == 0) = false := beq_eq_false_iff_ne.mpr hb
  have hwhere : docWhere "" ⟨none, none, none, some a, some b, none⟩ none
        s.user_permissions d = true ↔
      (d.deleted = false ∧ a * 1024 ≤ n ∧ n ≤ b * 1024) := by
    simp only [docWhere, permGate, docTextMatch, docFiltersMatch, truthyStr, truthyNat,
      hane, hbne, Bool.false_eq_true, if_false, hfs, Bool.and_eq_true, Bool.true_and,
      beq_iff_eq, decide_eq_true_eq]
    tauto
  constructor
  · rintro ⟨r, hr, hrid⟩
    obtain ⟨d', hd', hw', rfl⟩ :=
      (mem_advanced_search_docs s "" ⟨none, none, none, some a, some b, none⟩ limit hg hlim
        r).mp hr
    have : d' = d := List.inj_on_of_nodup_map hnd hd' hd hrid
    subst this
    exact hwhere.mp hw'
  · intro h
    exact ⟨docToResult d,
      (mem_advanced_search_docs s "" ⟨none, none, none, some a, some b, none⟩ limit hg hlim
        _).mpr ⟨d, hd, hwhere.mpr h, rfl⟩, rfl⟩

/-- Witness for the amended C3: `size_min = 1`, `size_max = 2` against the
500-byte document (1024 ≤ 500 is false, so it is excluded). -/
theorem advanced_search_size_filter_kib_witness :
    (∃ r ∈ advanced_search stateB "" ⟨none, none, none, some 1, some 2, none⟩ none 10,
        r.id = docB.id) ↔
      (docB.deleted = false ∧ 1 * 1024 ≤ 500 ∧ 500 ≤ 2 * 1024) :=
  advanced_search_size_filter_kib stateB 10 1 2 500 docB
    (by decide) (by decide) (by decide) (by decide) (by decide) (by decide) (by decide)

/-! ### Claim C6 -/

/-- Claim C6: after a successful `archive_document` the blob is gone from the
original stored path (moved when present, and the operation still succeeds
when it never existed), a row with the document's id and its prior metadata
plus `deleted_at`/`deleted_by` is in `archived_documents`, and the live row
is merely flagged `deleted = 1` and still returned by `get_document`;
`archive_document` returns `false` when the id is absent.  (The archive
target path is assumed distinct from the source path, i.e. the archive
directory is not the storage location itself.) -/
theorem archive_document_complete :
    (∀ (s : DMS) (docId archiveDir : String) (delBy : Option String) (now : String)
        (v : DocView),
      get_document s docId = some v →
      archiveDir ++ "/" ++ basename v.row.stored_path ≠ v.row.stored_path →
      (archive_document s docId archiveDir delBy now).2 = true ∧
      (∀ f ∈ (archive_document s docId archiveDir delBy now).1.files,
        f.1 ≠ v.row.stored_path) ∧
      (∃ a ∈ (archive_document s docId archiveDir delBy now).1.archived_documents,
        a.id = docId ∧ a.original_name = v.row.original_name ∧
        a.metadata = v.row.metadata ∧ a.created_at = v.row.created_at ∧
        a.version = v.row.version ∧ a.deleted_at = now ∧ a.deleted_by = delBy) ∧
      (∃ v', get_document (archive_document s docId archiveDir delBy now).1 docId = some v' ∧
        v'.row.deleted = true)) ∧
    (∀ (s : DMS) (docId archiveDir : String) (delBy : Option String) (now : String),
      get_document s docId = none →
      archive_document s docId archiveDir delBy now = (s, false)) := by
  constructor
  · intro s docId archiveDir delBy now v hv hpath
    cases hfind : s.documents.find? (fun x => x.id == docId) with
    | none => rw [get_document, hfind] at hv; cases hv
    | some d =>
      rw [get_document, hfind] at hv
      injection hv with hv'
      subst hv'
      simp only at hpath
      have hdid : d.id = docId := by simpa using List.find?_some hfind
      have hdmem : d ∈ s.documents := List.mem_of_find?_eq_some hfind
      simp only [archive_document, hfind]
      by_cases hex : s.files.any (fun f => f.1 == d.stored_path) = true
      · rw [if_pos hex, if_pos hex]
        refine ⟨?_, ?_, ?_, ?_⟩
        · trivial
        · intro f hf
          obtain ⟨g, hg, rfl⟩ := List.mem_map.mp hf
          by_cases hgp : (g.1 == d.stored_path) = true
          · rw [if_pos hgp]
            exact hpath
          · rw [if_neg hgp]
            exact fun h => hgp (beq_iff_eq.mpr h)
        · exact ⟨_, List.mem_append_right _ (List.mem_singleton_self _), hdid, rfl, rfl,
            rfl, rfl, rfl, rfl⟩
        · obtain ⟨d₀, hd₀, hd₀id, hfind'⟩ :=
            find?_map_update (fun d => { d with deleted := true }) (fun d => rfl)
              ⟨d, hdmem, hdid⟩
          rw [get_document]
          simp only [hfind']
          exact ⟨_, rfl, rfl⟩
      · rw [if_neg hex, if_neg hex]
        refine ⟨?_, ?_, ?_, ?_⟩
        · trivial
        · intro f hf
          have := List.any_eq_false.mp (Bool.eq_false_iff.mpr hex) f hf
          exact fun h => this (beq_iff_eq.mpr h)
        · exact ⟨_, List.mem_append_right _ (List.mem_singleton_self _), hdid, rfl, rfl,
            rfl, rfl, rfl, rfl⟩
        · obtain ⟨d₀, hd₀, hd₀id, hfind'⟩ :=
            find?_map_update (fun d => { d with deleted := true }) (fun d => rfl)
              ⟨d, hdmem, hdid⟩
          rw [get_document]
          simp only [hfind']
          exact ⟨_, rfl, rfl⟩
  · intro s docId archiveDir delBy now hv
    cases hfind : s.documents.find? (fun x => x.id == docId) with
    | none => rw [archive_document, hfind]
    | some d => rw [get_document, hfind] at hv; cases hv

/-- Witness for C6: archiving an existing document whose blob exists, and an
archive call on a missing id. -/
theorem archive_document_complete_witness :
    ((archive_document stateF "doc3" "archive" (some "admin") "t9").2 = true ∧
      (∀ f ∈ (archive_document stateF "doc3" "archive" (some "admin") "t9").1.files,
        f.1 ≠ docC.stored_path) ∧
      (∃ a ∈ (archive_document stateF "doc3" "archive" (some "admin") "t9").1.archived_documents,
        a.id = "doc3" ∧ a.original_name = docC.original_name ∧
        a.metadata = docC.metadata ∧ a.created_at = docC.created_at ∧
        a.version = docC.version ∧ a.deleted_at = "t9" ∧ a.deleted_by = some "admin") ∧
      (∃ v', get_document (archive_document stateF "doc3" "archive" (some "admin") "t9").1 "doc3"
          = some v' ∧ v'.row.deleted = true)) ∧
    archive_document stateF "missing" "archive" none "t9" = (stateF, false) :=
  ⟨archive_document_complete.1 stateF "doc3" "archive" (some "admin") "t9"
      ⟨docC, "text", some "hi"⟩ (by decide) (by decide),
   archive_document_complete.2 stateF "missing" "archive" none "t9" (by decide)⟩

/-! ### Claim C7 -/

/-- Claim C7: `add_document` fails with a not-found error when the source
path does not exist; and when the metadata insert fails after the blob copy
succeeded (a UNIQUE/PRIMARY KEY violation), the copied blob is removed again
and an error is raised, leaving the documents and version tables unchanged —
no orphan blob at the computed storage path without a documents row. -/
theorem add_document_no_orphan :
    (∀ (s : DMS) (fp : String) (md : Option Meta) (cb : Option String)
        (docId vid now dir : String),
      lookupFile s.files fp = none →
      add_document s fp md cb docId vid now dir
        = (s, Except.error ("File does not exist: " ++ fp))) ∧
    (∀ (s : DMS) (fp : String) (md : Option Meta) (cb : Option String)
        (docId vid now dir content : String),
      lookupFile s.files fp = some content →
      addInsertFails s docId vid (dir ++ "/" ++ docId ++ "_" ++ basename fp) = true →
      (add_document s fp md cb docId vid now dir).2
          = Except.error "Failed to add document to database" ∧
      (∀ f ∈ (add_document s fp md cb docId vid now dir).1.files,
        f.1 ≠ dir ++ "/" ++ docId ++ "_" ++ basename fp) ∧
      (add_document s fp md cb docId vid now dir).1.documents = s.documents ∧
      (add_document s fp md cb docId vid now dir).1.document_versions
          = s.document_versions) := by
  constructor
  · intro s fp md cb docId vid now dir hlook
    rw [add_document.eq_def, hlook]
  · intro s fp md cb docId vid now dir content hlook hfail
    rw [add_document.eq_def, hlook]
    simp only [if_pos hfail]
    refine ⟨?_, ?_, ?_, ?_⟩
    · trivial
    · intro f hf
      have := (List.mem_filter.mp hf).2
      exact bne_iff_ne.mp this
    · trivial
    · trivial

/-- Witness for C7: a missing source file, and an insert collision on an
existing `stored_path` (the UNIQUE column) after the copy. -/
theorem add_document_no_orphan_witness :
    add_document stateDup "missing/none.txt" none none "d9" "v9" "t" "storage"
        = (stateDup, Except.error ("File does not exist: " ++ "missing/none.txt")) ∧
    ((add_document stateDup "src/a.txt" none none "dup" "v9" "t" "storage").2
        = Except.error "Failed to add document to database" ∧
      (∀ f ∈ (add_document stateDup "src/a.txt" none none "dup" "v9" "t" "storage").1.files,
        f.1 ≠ "storage" ++ "/" ++ "dup" ++ "_" ++ basename "src/a.txt") ∧
      (add_document stateDup "src/a.txt" none none "dup" "v9" "t" "storage").1.documents
          = stateDup.documents ∧
      (add_document stateDup "src/a.txt" none none "dup" "v9" "t" "storage").1.document_versions
          = stateDup.document_versions) :=
  ⟨add_document_no_orphan.1 stateDup "missing/none.txt" none none "d9" "v9" "t" "storage"
      (by decide),
   add_document_no_orphan.2 stateDup "src/a.txt" none none "dup" "v9" "t" "storage" "content"
      (by decide) (by decide)⟩

/-! ### Claim C5 -/

/-- Inserting a fresh document row (version 1) together with its initial
version row (version_number 1) preserves the versioning invariant. -/
theorem versionInvariant_insert (s : DMS) (D : DocRow) (V : VersionRow)
    (files' : List (String × String)) (hinv : versionInvariant s)
    (hD : D.version = 1) (hDid : V.document_id = D.id) (hV : V.version_number = 1)
    (hfresh : ∀ d ∈ s.documents, d.id ≠ D.id) :
    versionInvariant { s with
      files := files',
      documents := s.documents ++ [D],
      document_versions := s.document_versions ++ [V] } := by
  obtain ⟨hnd, hown, hperm⟩ := hinv
  refine ⟨?_, ?_, ?_⟩
  · simp only [docIdsNodup, List.map_append, List.map_cons, List.map_nil]
    rw [List.nodup_append]
    refine ⟨hnd, List.nodup_singleton _, ?_⟩
    intro x hx hx'
    obtain ⟨d, hd, rfl⟩ := List.mem_map.mp hx
    exact hfresh d hd (List.mem_singleton.mp hx')
  · intro v hv
    rcases List.mem_append.mp hv with h | h
    · obtain ⟨d, hd, hid⟩ := hown v h
      exact ⟨d, List.mem_append_left _ hd, hid⟩
    · rw [List.mem_singleton.mp h]
      exact ⟨D, List.mem_append_right _ (List.mem_singleton_self _), hDid.symm⟩
  · intro d' hd'
    rcases List.mem_append.mp hd' with h | h
    · have hne : (V.document_id == d'.id) = false := by
        rw [hDid]
        exact beq_eq_false_iff_ne.mpr fun heq => hfresh d' h heq.symm
      show (((s.document_versions ++ [V]).filter
          (fun v => v.document_id == d'.id)).map (fun v => v.version_number)).Perm
        (List.range' 1 d'.version)
      rw [List.filter_append,
        show List.filter (fun v => v.document_id == d'.id) [V] = [] by
          simp [List.filter, hne],
        List.append_nil]
      exact hperm d' h
    · rw [List.mem_singleton.mp h]
      show (((s.document_versions ++ [V]).filter
          (fun v => v.document_id == D.id)).map (fun v => v.version_number)).Perm
        (List.range' 1 D.version)
      have hold : List.filter (fun v => v.document_id == D.id) s.document_versions = [] := by
        rw [List.filter_eq_nil_iff]
        intro v hv hvd
        obtain ⟨d, hd, hid⟩ := hown v hv
        exact hfresh d hd (hid.trans (beq_iff_eq.mp hvd))
      rw [List.filter_append, hold, List.nil_append,
        show List.filter (fun v => v.document_id == D.id) [V] = [V] by
          simp [List.filter, hDid],
        List.map_singleton, hV, hD]
      exact List.Perm.refl _

/-- Appending a version row numbered `max(existing) + 1` and bumping the
parent document's `version` pointer to the same number preserves the
versioning invariant. -/
theorem versionInvariant_newVersion (s : DMS) (docId : String) (V : VersionRow)
    (files' : List (String × String)) (hinv : versionInvariant s)
    (hdocid : V.document_id = docId)
    (hvn : V.version_number = maxVersion s docId + 1)
    (hex : ∃ d ∈ s.documents, d.id = docId) :
    versionInvariant { s with
      files := files',
      document_versions := s.document_versions ++ [V],
      documents := s.documents.map (fun d =>
        if d.id == docId then { d with version := maxVersion s docId + 1 } else d) } := by
  obtain ⟨hnd, hown, hperm⟩ := hinv
  obtain ⟨d₀, hd₀mem, hd₀id⟩ := hex
  have hupd : ∀ d : DocRow,
      ((if d.id == docId then { d with version := maxVersion s docId + 1 } else d) :
        DocRow).id = d.id := by
    intro d
    by_cases h : (d.id == docId) = true
    · rw [if_pos h]
    · rw [if_neg h]
  have hids : ((s.documents.map (fun d =>
        if d.id == docId then { d with version := maxVersion s docId + 1 } else d)).map
          (fun d => d.id))
      = s.documents.map (fun d => d.id) := by
    rw [List.map_map]
    exact List.map_congr_left fun d _ => hupd d
  have hmax : maxVersion s docId = d₀.version :=
    maxOf_perm_range' (hd₀id ▸ hperm d₀ hd₀mem)
  refine ⟨?_, ?_, ?_⟩
  · show ((s.documents.map (fun d =>
        if d.id == docId then { d with version := maxVersion s docId + 1 } else d)).map
          (fun d => d.id)).Nodup
    rw [hids]
    exact hnd
  · intro v hv
    rcases List.mem_append.mp hv with h | h
    · obtain ⟨d, hd, hid⟩ := hown v h
      exact ⟨_, List.mem_map_of_mem _ hd, (hupd d).trans hid⟩
    · rw [List.mem_singleton.mp h]
      exact ⟨_, List.mem_map_of_mem _ hd₀mem, (hupd d₀).trans (hd₀id.trans hdocid.symm)⟩
  · intro d' hd'
    obtain ⟨d, hd, rfl⟩ := List.mem_map.mp hd'
    by_cases hcase : (d.id == docId) = true
    · have hdd₀ : d = d₀ :=
        List.inj_on_of_nodup_map hnd hd hd₀mem ((beq_iff_eq.mp hcase).trans hd₀id.symm)
      subst hdd₀
      rw [if_pos hcase]
      show (((s.document_versions ++ [V]).filter
          (fun v => v.document_id == d.id)).map (fun v => v.version_number)).Perm
        (List.range' 1 (maxVersion s docId + 1))
      have hvd : (V.document_id == d.id) = true :=
        beq_iff_eq.mpr (hdocid.trans hd₀id.symm)
      rw [List.filter_append,
        show List.filter (fun v => v.document_id == d.id) [V] = [V] by
          simp [List.filter, hvd],
        List.map_append, List.map_singleton, hvn, hmax]
      have hbase : ((List.filter (fun v => v.document_id == d.id) s.document_versions).map
          (fun v => v.version_number)).Perm (List.range' 1 d.version) := hperm d hd
      have := hbase.append (List.Perm.refl [d.version + 1])
      refine this.trans ?_
      rw [show List.range' 1 d.version ++ [d.version + 1] = List.range' 1 (d.version + 1) by
        rw [List.range'_concat]
        simp [Nat.add_comm]]
    · rw [if_neg hcase]
      show (((s.document_versions ++ [V]).filter
          (fun v => v.document_id == d.id)).map (fun v => v.version_number)).Perm
        (List.range' 1 d.version)
      have hvd : (V.document_id == d.id) = false := by
        rw [hdocid]
        exact beq_eq_false_iff_ne.mpr fun heq =>
          hcase (beq_iff_eq.mpr heq.symm)
      rw [List.filter_append,
        show List.filter (fun v => v.document_id == d.id) [V] = [] by
          simp [List.filter, hvd],
        List.append_nil]
      exact hperm d hd

/-- Claim C5: every document's stored `version` field equals the maximum
`version_number` among its version rows, and `get_document_versions` returns
exactly the gapless sequence `N, N-1, ..., 1` (descending) where `N` is the
document's current version.  The invariant (stated as: the multiset of a
document's version numbers is exactly `1..version`) holds of the empty
store, is established by `add_document` (which inserts version 1 for a fresh
id) and preserved by `create_document_version` (which inserts
`max(existing) + 1` and updates the parent's `version` pointer). -/
theorem version_invariant_preserved :
    versionInvariant emptyDMS ∧
    (∀ s, versionInvariant s → ∀ d ∈ s.documents,
      (get_document_versions s d.id).map (fun v => v.version_number)
        = (List.range' 1 d.version).reverse) ∧
    (∀ s fp md cb docId vid now dir, versionInvariant s →
      (add_document s fp md cb docId vid now dir).2 = Except.ok docId →
      versionInvariant (add_document s fp md cb docId vid now dir).1) ∧
    (∀ s docId fp cb desc vid now dir, versionInvariant s →
      (create_document_version s docId fp cb desc vid now dir).2 = Except.ok vid →
      versionInvariant (create_document_version s docId fp cb desc vid now dir).1) := by
  refine ⟨⟨List.nodup_nil, ?_, ?_⟩, ?_, ?_, ?_⟩
  · intro v hv
    cases hv
  · intro d hd
    cases hd
  · intro s hinv d hd
    exact get_document_versions_desc s d.id d.version (hinv.2.2 d hd)
  · intro s fp md cb docId vid now dir hinv hsucc
    cases hlook : lookupFile s.files fp with
    | none =>
      rw [add_document.eq_def, hlook] at hsucc
      simp at hsucc
    | some content =>
      by_cases hfail :
          addInsertFails s docId vid (dir ++ "/" ++ docId ++ "_" ++ basename fp) = true
      · simp only [add_document.eq_def, hlook, if_pos hfail] at hsucc
        simp at hsucc
      · have hfresh : ∀ d ∈ s.documents, d.id ≠ docId := by
          intro d hd heq
          apply hfail
          simp only [addInsertFails, Bool.or_eq_true, List.any_eq_true]
          exact Or.inl ⟨d, hd, by simp [heq]⟩
        simp only [add_document.eq_def, hlook, if_neg hfail]
        refine versionInvariant_insert s _ _ _ hinv ?_ ?_ ?_ ?_
        · rfl
        · rfl
        · rfl
        · exact hfresh
  · intro s docId fp cb desc vid now dir hinv hsucc
    cases hlook : lookupFile s.files fp with
    | none =>
      rw [create_document_version.eq_def, hlook] at hsucc
      simp at hsucc
    | some content =>
      cases hdoc : get_document s docId with
      | none =>
        simp only [create_document_version.eq_def, hlook, hdoc] at hsucc
        simp at hsucc
      | some v =>
        by_cases hfail : versionInsertFails s vid = true
        · simp only [create_document_version.eq_def, hlook, hdoc, if_pos hfail] at hsucc
          simp at hsucc
        · have hex : ∃ d₀ ∈ s.documents, d₀.id = docId := by
            cases hf : s.documents.find? (fun x => x.id == docId) with
            | none => rw [get_document, hf] at hdoc; cases hdoc
            | some d₀ =>
              exact ⟨d₀, List.mem_of_find?_eq_some hf, by simpa using List.find?_some hf⟩
          simp only [create_document_version.eq_def, hlook, hdoc, if_neg hfail]
          refine versionInvariant_newVersion s docId _ _ hinv ?_ ?_ hex
          · rfl
          · rfl

/-- Witness for C5: a one-version document lists `[1]` descending, and the
invariant survives both an `add_document` and a `create_document_version` on
a concrete store. -/
theorem version_invariant_preserved_witness :
    ((get_document_versions stateV docC.id).map (fun v => v.version_number)
        = (List.range' 1 docC.version).reverse) ∧
    versionInvariant (add_document stateV "src/new.txt" none none "docN" "vN" "tN" "storage").1 ∧
    versionInvariant
      (create_document_version stateV "doc3" "src/new.txt" "u" "d" "v2" "t2" "storage").1 :=
  ⟨version_invariant_preserved.2.1 stateV
      (by unfold versionInvariant docIdsNodup; decide) docC (by decide),
   version_invariant_preserved.2.2.1 stateV "src/new.txt" none none "docN" "vN" "tN" "storage"
      (by unfold versionInvariant docIdsNodup; decide) rfl,
   version_invariant_preserved.2.2.2 stateV "doc3" "src/new.txt" "u" "d" "v2" "t2" "storage"
      (by unfold versionInvariant docIdsNodup; decide) rfl⟩

end DocSys
